import Mathlib

/-!
# temporex: frame relay hub and connection pumps

A shallow embedding of `main.go` (the `GameRoom` hub, `Player.ReadPump`,
`Player.WritePump`, `serveWs`) together with the properties of the relay.

* A Go channel `chan []byte` of capacity 256 is a record of its buffered
  messages and its closed flag.  Channels live in a heap addressed by natural
  numbers, a `Player` holds the address of its `Send` channel.
* `map[string]*Player` is an association list with distinct keys.
* A run-time panic of the hub goroutine (send on a closed channel, close of a
  closed channel) is an `Except.error`.
* The `select` of `GameRoom.Run` is a step function over the received event.
-/

namespace Temporex

/-- A Go byte slice. -/
abbrev Bytes := List UInt8

/-- The run-time panics a channel operation can raise. -/
inductive Panic where
  | sendOnClosed
  | closeOfClosed
deriving DecidableEq, Repr

/-- A buffered channel of byte slices: the messages it holds, oldest first, and
whether `close` has been called on it. -/
structure Chan where
  buf : List Bytes
  closed : Bool
deriving DecidableEq, Repr

/-- Capacity of a client's outbound queue: `make(chan []byte, 256)` in `serveWs`. -/
def sendCap : Nat := 256

/-- The channel `make(chan []byte, 256)` returns: open and empty. -/
def Chan.make : Chan := { buf := [], closed := false }

/-- The built-in `close(c)`: panics on a channel that is already closed. -/
def Chan.close (c : Chan) : Except Panic Chan :=
  if c.closed then .error .closeOfClosed else .ok { c with closed := true }

/-- The non-blocking send `select { case c <- m: default: }`.  It panics on a
closed channel, yields `some` of the channel with `m` appended when the buffer
has room, and `none` (the `default` branch is taken) when the buffer is full. -/
def Chan.trySend (c : Chan) (m : Bytes) : Except Panic (Option Chan) :=
  if c.closed then .error .sendOnClosed
  else if c.buf.length < sendCap then .ok (some { c with buf := c.buf ++ [m] })
  else .ok none

/-- The struct `Player` (the connection is left out, the hub never touches
it): the identifier and the address of the `Send` channel. -/
structure Player where
  ID : String
  Send : Nat
deriving DecidableEq, Repr

/-- The registry type `map[string]*Player`. -/
abbrev Registry := AList (fun _ : String => Player)

/-- The hub-owned fields of the struct `GameRoom`.  Its three channels
`Broadcast`, `Register`, `Unregister` are the event sources of `Run`. -/
structure GameRoom where
  Players : Registry
  FrameNum : Int

/-- The state the hub goroutine acts on: the room and the heap holding the
clients' `Send` channels. -/
structure Hub where
  room : GameRoom
  chans : Nat → Chan

/-- The constructor `NewGameRoom`: empty registry, frame counter 0. -/
def NewGameRoom : GameRoom := { Players := ∅, FrameNum := 0 }

/-- The hub at start-up; no channel has been written to or closed. -/
def Hub.init : Hub := { room := NewGameRoom, chans := fun _ => Chan.make }

/-- Two's-complement wrap-around of a signed 64-bit integer. -/
def wrapInt64 (x : Int) : Int := (x + 2 ^ 63) % 2 ^ 64 - 2 ^ 63

/-- The hub after an operation on the channel at address `c` left it as `ch`. -/
def Hub.setChan (s : Hub) (c : Nat) (ch : Chan) : Hub :=
  { s with chans := Function.update s.chans c ch }

/-- The hub after `delete(room.Players, k)`. -/
def Hub.delete (s : Hub) (k : String) : Hub :=
  { s with room := { s.room with Players := s.room.Players.erase k } }

/-- The case `player := <-room.Register` of `Run`:
`room.Players[player.ID] = player`. -/
def Register (s : Hub) (player : Player) : Hub :=
  { s with room := { s.room with Players := s.room.Players.insert player.ID player } }

/-- The case `player := <-room.Unregister` of `Run`: when `player.ID` is a key
of the registry, delete that key and close `player.Send`. -/
def Unregister (s : Hub) (player : Player) : Except Panic Hub :=
  match s.room.Players.lookup player.ID with
  | some _ =>
    match (s.chans player.Send).close with
    | .error e => .error e
    | .ok ch => .ok ((s.delete player.ID).setChan player.Send ch)
  | none => .ok s

/-- The body of the `for _, player := range room.Players` loop of the
`Broadcast` case: a non-blocking send of `message` on `player.Send`; when the
queue is full, `close(player.Send)` and `delete(room.Players, player.ID)`. -/
def offer (message : Bytes) (player : Player) (s : Hub) : Except Panic Hub :=
  match (s.chans player.Send).trySend message with
  | .error e => .error e
  | .ok (some ch) => .ok (s.setChan player.Send ch)
  | .ok none =>
    match (s.chans player.Send).close with
    | .error e => .error e
    | .ok ch => .ok ((s.setChan player.Send ch).delete player.ID)

/-- The `range` loop over the registry, visiting the keys in the order `ks`.
An entry deleted before it is reached is not visited (Go's `range` over a map
under deletion). -/
def rangePlayers (message : Bytes) : List String → Hub → Except Panic Hub
  | [], s => .ok s
  | k :: ks, s =>
    match s.room.Players.lookup k with
    | none => rangePlayers message ks s
    | some player =>
      match offer message player s with
      | .error e => .error e
      | .ok s1 => rangePlayers message ks s1

/-- The case `message := <-room.Broadcast` of `Run`.  Go leaves the iteration
order of a map unspecified, so the order in which `range` yields the keys is
the parameter `order`, a permutation of the keys of the registry. -/
def Dispatch (s : Hub) (message : Bytes) (order : List String) : Except Panic Hub :=
  rangePlayers message order s

/-- The case `<-ticker.C` of `Run`: `room.FrameNum++` on an `int64`. -/
def Tick (s : Hub) : Hub :=
  { s with room := { s.room with FrameNum := wrapInt64 (s.room.FrameNum + 1) } }

/-- What the `select` of `GameRoom.Run` can receive. -/
inductive Event where
  | Register (player : Player)
  | Unregister (player : Player)
  | Broadcast (message : Bytes) (order : List String)
  | Tick

/-- One iteration of the `for { select { ... } }` loop of `GameRoom.Run`. -/
def Run (s : Hub) : Event → Except Panic Hub
  | .Register player => .ok (Register s player)
  | .Unregister player => Unregister s player
  | .Broadcast message order => Dispatch s message order
  | .Tick => .ok (Tick s)

/-- The hub loop over a sequence of received events; it stops at a panic. -/
def RunAll : Hub → List Event → Except Panic Hub
  | s, [] => .ok s
  | s, e :: es =>
    match Run s e with
    | .error p => .error p
    | .ok s1 => RunAll s1 es

/-- Number of entries of the registry: `len(room.Players)`. -/
def Hub.count (s : Hub) : Nat := s.room.Players.entries.length

/-- The handle the registry holds under identifier `k`, if any. -/
def Hub.lookup (s : Hub) (k : String) : Option Player := s.room.Players.lookup k

/-! ## The connection pumps -/

/-- The struct `FrameData`.  `Actions` is `map[string]interface{}`, which the
relay carries without looking inside; its type is a parameter. -/
structure FrameData (α : Type) where
  PlayerID : String
  FrameNum : Int
  Timestamp : Int
  Actions : α

/-- The assignment `frameData.Timestamp = time.Now().UnixNano()` of `ReadPump`. -/
def stamp {α : Type} (frameData : FrameData α) (now : Int) : FrameData α :=
  { frameData with Timestamp := now }

/-- The handling of one received `message` in `ReadPump`: decode, stamp,
re-encode.  The result is what is sent on `room.Broadcast`, `none` when nothing
is sent.  `unmarshal` and `marshal` stand for `json.Unmarshal` into a fresh
`FrameData` and `json.Marshal`, `none` being a non-nil error. -/
def relayFrame {α : Type} (unmarshal : Bytes → Option (FrameData α))
    (marshal : FrameData α → Option Bytes) (now : Int) (message : Bytes) : Option Bytes :=
  match unmarshal message with
  | none => none
  | some frameData => marshal (stamp frameData now)

/-- What a run of `ReadPump` does to the rest of the program. -/
inductive ReadEffect where
  | Broadcast (data : Bytes)
  | Unregister
  | ConnClose
deriving DecidableEq, Repr

/-- The loop of `ReadPump` over the successive results of
`player.Conn.ReadMessage()`, each paired with the clock reading of that
iteration; `none` is a read error.  A read error leaves the loop and runs the
deferred function (`room.Unregister <- player`, `player.Conn.Close()`); when
the inputs run out the pump is still waiting in `ReadMessage`. -/
def ReadPump {α : Type} (unmarshal : Bytes → Option (FrameData α))
    (marshal : FrameData α → Option Bytes) : List (Option Bytes × Int) → List ReadEffect
  | [] => []
  | (none, _) :: _ => [.Unregister, .ConnClose]
  | (some message, now) :: rest =>
    match relayFrame unmarshal marshal now message with
    | some data => .Broadcast data :: ReadPump unmarshal marshal rest
    | none => ReadPump unmarshal marshal rest

/-- The byte `'\n'`. -/
def newline : UInt8 := 10

/-- The loop `for i := 0; i < n; i++ { w.Write([]byte{'\n'}); w.Write(<-player.Send) }`
of `WritePump`, `w` being the bytes written so far.  A receive from an empty
closed channel yields the nil slice, a receive from an empty open channel
does not return (`none`). -/
def drainQueued : Nat → Bytes → Chan → Option (Bytes × Chan)
  | 0, w, ch => some (w, ch)
  | n + 1, w, ch =>
    match ch.buf with
    | x :: q => drainQueued n (w ++ [newline] ++ x) { ch with buf := q }
    | [] => if ch.closed then drainQueued n (w ++ [newline]) ch else none

/-- Outcome of the case `message, ok := <-player.Send` of `WritePump`. -/
inductive WriteStep where
  | blocked
  | closeMessage
  | writerError (ch : Chan)
  | wrote (data : Bytes) (ch : Chan)
deriving DecidableEq, Repr

/-- The case `message, ok := <-player.Send` of the `select` of `WritePump` on
the queue `ch`.  `nextWriter` tells whether `player.Conn.NextWriter` returns a
writer.  An empty open queue has nothing to receive; an empty closed queue
gives `ok = false` and the close message is written; otherwise the head is
received, written, and followed by the `len(player.Send)` messages still
queued.  `wrote data ch` is the single text message `data` and the queue left
behind. -/
def WritePumpRecv ( nextWriter : Bool) (ch : Chan) : WriteStep :=
  match ch.buf with
  | [] => if ch.closed then .closeMessage else .blocked
  | message :: q =>
    if nextWriter then
      match drainQueued q.length message { ch with buf := q } with
      | some (w, ch1) => .wrote w ch1
      | none => .blocked
    else .writerError { ch with buf := q }

/-- The queue a `WriteStep` leaves behind, given the queue before it. -/
def WriteStep.queue (ch : Chan) : WriteStep → Chan
  | .blocked => ch
  | .closeMessage => ch
  | .writerError ch1 => ch1
  | .wrote _ ch1 => ch1

/-! ## The whole server: connections and the hub -/

/-- The server: the hub state, the address the next `make(chan []byte, 256)`
returns, and the handles whose `ReadPump` has not yet run its deferred
`room.Unregister <- player`. -/
structure Server where
  hub : Hub
  next : Nat
  readers : List Player

/-- The server right after `go room.Run()` in `main`. -/
def Server.init : Server := { hub := Hub.init, next := 0, readers := [] }

/-- The identifier `serveWs` gives a connection: the query parameter
`player_id`, or `"player_"` followed by the formatted time when it is empty. -/
def playerID (query stamp : String) : String :=
  if query = "" then "player_" ++ stamp else query

/-- The handle `serveWs` builds on a server whose next fresh channel address is
`next`. -/
def newPlayer (next : Nat) (query stamp : String) : Player :=
  { ID := playerID query stamp, Send := next }

/-- The function `serveWs` after a successful upgrade: build the handle with a
fresh channel, hand it to the hub on `room.Register`, start both pumps. -/
def serveWs (w : Server) (query stamp : String) : Server :=
  let player := newPlayer w.next query stamp
  { hub := Register (w.hub.setChan w.next Chan.make) player,
    next := w.next + 1,
    readers := player :: w.readers }

/-- What happens in the server, as seen from the hub. -/
inductive Action where
  | connect (query stamp : String)
  | readerExit (player : Player)
  | broadcast (message : Bytes) (order : List String)
  | tick
  | writerRecv (player : Player) ( nextWriter : Bool)

/-- Result of a server action: the next state, a panic of the hub goroutine,
or `refused` when the action cannot happen in this state (the exit of a
reader that is not running, a receive by a writer that was never started, an
iteration order that is not a permutation of the registry keys). -/
inductive Outcome where
  | ok (w : Server)
  | panic (p : Panic)
  | refused

/-- One server action.
* `connect`: `serveWs`.
* `readerExit player`: the `ReadPump` of `player` leaves its loop and the hub
  receives `player` on `room.Unregister`; possible once per started reader.
* `broadcast message order`: the hub receives `message` on `room.Broadcast`
  and `range` yields the keys in the order `order`.
* `tick`: the hub receives from `ticker.C`.
* `writerRecv player`: the `WritePump` of `player` takes from its queue. -/
def Server.step (w : Server) : Action → Outcome
  | .connect query stamp => .ok (serveWs w query stamp)
  | .readerExit player =>
    if player ∈ w.readers then
      match Unregister w.hub player with
      | .error p => .panic p
      | .ok h => .ok { w with hub := h, readers := w.readers.erase player }
    else .refused
  | .broadcast message order =>
    if order.Perm w.hub.room.Players.keys then
      match Dispatch w.hub message order with
      | .error p => .panic p
      | .ok h => .ok { w with hub := h }
    else .refused
  | .tick => .ok { w with hub := Tick w.hub }
  | .writerRecv player nextWriter =>
    if player.Send < w.next then
      let ch := w.hub.chans player.Send
      let ch1 := (WritePumpRecv nextWriter ch).queue ch
      .ok { w with hub := w.hub.setChan player.Send ch1 }
    else .refused

/-- A sequence of server actions from state `w`. -/
def Server.run : Server → List Action → Outcome
  | w, [] => .ok w
  | w, a :: as =>
    match w.step a with
    | .ok w1 => Server.run w1 as
    | .panic p => .panic p
    | .refused => .refused

/-! ## Well-formed hub states -/

/-- The hub states the server can be in (see `Server.run_wellFormed`): every
registry entry is filed under the identifier of its handle, the queue of a
registered handle is open, and two registry entries never share a queue. -/
structure WellFormed (s : Hub) : Prop where
  keyed : ∀ k p, s.lookup k = some p → p.ID = k
  isOpen : ∀ k p, s.lookup k = some p → (s.chans p.Send).closed = false
  apart : ∀ k1 k2 p1 p2, s.lookup k1 = some p1 → s.lookup k2 = some p2 →
    p1.Send = p2.Send → k1 = k2

/-- What one visit of the `range` loop does to the hub, for the entry `k ↦ p`. -/
structure Visited (m : Bytes) (k : String) (p : Player) (s s1 : Hub) : Prop where
  elsewhere : ∀ k2, k2 ≠ k → s1.lookup k2 = s.lookup k2
  otherChans : ∀ c, c ≠ p.Send → s1.chans c = s.chans c
  here : if (s.chans p.Send).buf.length < sendCap
    then s1.lookup k = some p ∧ s1.chans p.Send = ⟨(s.chans p.Send).buf ++ [m], false⟩
    else s1.lookup k = none ∧ s1.chans p.Send = ⟨(s.chans p.Send).buf, true⟩
  frame : s1.room.FrameNum = s.room.FrameNum
  wf : WellFormed s1

/-- What the `range` loop over the keys `ks` does to the hub. -/
structure Delivered (m : Bytes) (ks : List String) (s s1 : Hub) : Prop where
  kept : ∀ k p, k ∈ ks → s.lookup k = some p → (s.chans p.Send).buf.length < sendCap →
    s1.lookup k = some p ∧ s1.chans p.Send = ⟨(s.chans p.Send).buf ++ [m], false⟩
  evicted : ∀ k p, k ∈ ks → s.lookup k = some p → ¬ (s.chans p.Send).buf.length < sendCap →
    s1.lookup k = none ∧ s1.chans p.Send = ⟨(s.chans p.Send).buf, true⟩
  others : ∀ k, k ∉ ks → s1.lookup k = s.lookup k
  shrink : ∀ k p, s1.lookup k = some p → s.lookup k = some p
  untouched : ∀ c, (∀ k p, k ∈ ks → s.lookup k = some p → p.Send ≠ c) → s1.chans c = s.chans c
  frame : s1.room.FrameNum = s.room.FrameNum
  wf : WellFormed s1

/-- The invariant of the server: the hub is well formed, every handle in use
has a channel address below `next`, and a running reader and a registry entry
that share a queue are one and the same handle. -/
structure Server.Inv (w : Server) : Prop where
  wf : WellFormed w.hub
  regBelow : ∀ k p, w.hub.lookup k = some p → p.Send < w.next
  readBelow : ∀ p, p ∈ w.readers → p.Send < w.next
  own : ∀ p, p ∈ w.readers → ∀ k p2, w.hub.lookup k = some p2 → p.Send = p2.Send → p = p2

/-! # Theorems -/

/-! ## Channel and registry lemmas -/

@[simp]
theorem lookup_setChan (s : Hub) (c : Nat) (ch : Chan) (k : String) :
    (s.setChan c ch).lookup k = s.lookup k := rfl

@[simp]
theorem chans_setChan_same (s : Hub) (c : Nat) (ch : Chan) :
    (s.setChan c ch).chans c = ch := by
  simp [Hub.setChan]

theorem chans_setChan_ne (s : Hub) {c c2 : Nat} (ch : Chan) (h : c2 ≠ c) :
    (s.setChan c ch).chans c2 = s.chans c2 := by
  simp [Hub.setChan, Function.update_noteq h]

@[simp]
theorem frame_setChan (s : Hub) (c : Nat) (ch : Chan) :
    (s.setChan c ch).room.FrameNum = s.room.FrameNum := rfl

@[simp]
theorem lookup_delete_same (s : Hub) (k : String) : (s.delete k).lookup k = none := by
  simp [Hub.delete, Hub.lookup]

theorem lookup_delete_ne (s : Hub) {k k2 : String} (h : k2 ≠ k) :
    (s.delete k).lookup k2 = s.lookup k2 := by
  simp [Hub.delete, Hub.lookup, AList.lookup_erase_ne h]

@[simp]
theorem chans_delete (s : Hub) (k : String) : (s.delete k).chans = s.chans := rfl

@[simp]
theorem frame_delete (s : Hub) (k : String) :
    (s.delete k).room.FrameNum = s.room.FrameNum := rfl

theorem lookup_delete_some (s : Hub) {k k2 : String} {p : Player}
    (h : (s.delete k).lookup k2 = some p) : k2 ≠ k ∧ s.lookup k2 = some p := by
  by_cases hk : k2 = k
  · subst hk; simp at h
  · exact ⟨hk, by rw [← lookup_delete_ne s hk]; exact h⟩

theorem offer_room (m : Bytes) (p : Player) (s : Hub)
    (ho : (s.chans p.Send).closed = false) (hl : (s.chans p.Send).buf.length < sendCap) :
    offer m p s = .ok (s.setChan p.Send ⟨(s.chans p.Send).buf ++ [m], false⟩) := by
  simp [offer, Chan.trySend, ho, hl]

theorem offer_full (m : Bytes) (p : Player) (s : Hub)
    (ho : (s.chans p.Send).closed = false) (hl : ¬ (s.chans p.Send).buf.length < sendCap) :
    offer m p s = .ok ((s.setChan p.Send ⟨(s.chans p.Send).buf, true⟩).delete p.ID) := by
  simp [offer, Chan.trySend, Chan.close, ho, hl]

theorem offer_visited (m : Bytes) (k : String) (p : Player) (s : Hub)
    (hwf : WellFormed s) (hk : s.lookup k = some p) :
    ∃ s1, offer m p s = .ok s1 ∧ Visited m k p s s1 := by
  have ho := hwf.isOpen k p hk
  have hid := hwf.keyed k p hk
  by_cases hl : (s.chans p.Send).buf.length < sendCap
  · refine ⟨_, offer_room m p s ho hl, ?_⟩
    refine ⟨fun k2 _ => rfl, fun c hc => chans_setChan_ne s _ hc, ?_, rfl, ?_⟩
    · simp [hl, hk]
    · refine ⟨hwf.keyed, ?_, hwf.apart⟩
      intro k2 p2 h2
      by_cases hc : p2.Send = p.Send
      · simp [hc]
      · rw [chans_setChan_ne s _ hc]
        exact hwf.isOpen k2 p2 h2
  · refine ⟨_, offer_full m p s ho hl, ?_⟩
    rw [hid]
    refine ⟨fun k2 h2 => by rw [lookup_delete_ne _ h2]; rfl,
      fun c hc => by simp [chans_setChan_ne s _ hc], ?_, rfl, ?_⟩
    · simp [hl]
    · refine ⟨?_, ?_, ?_⟩
      · intro k2 p2 h2
        exact hwf.keyed k2 p2 (lookup_delete_some _ h2).2
      · intro k2 p2 h2
        obtain ⟨hne, h2'⟩ := lookup_delete_some _ h2
        have hc : p2.Send ≠ p.Send := fun hc => hne (hwf.apart k2 k p2 p h2' hk hc)
        simp only [chans_delete]
        rw [chans_setChan_ne s _ hc]
        exact hwf.isOpen k2 p2 h2'
      · intro k1 k2 p1 p2 h1 h2
        exact hwf.apart k1 k2 p1 p2 (lookup_delete_some _ h1).2 (lookup_delete_some _ h2).2

theorem rangePlayers_delivered (m : Bytes) (ks : List String) :
    ∀ s : Hub, WellFormed s → ks.Nodup →
      ∃ s1, rangePlayers m ks s = .ok s1 ∧ Delivered m ks s s1 := by
  induction ks with
  | nil =>
    intro s hwf _
    exact ⟨s, rfl, ⟨by simp, by simp, fun _ _ => rfl, fun _ _ h => h, fun _ _ => rfl, rfl, hwf⟩⟩
  | cons k ks ih =>
    intro s hwf hnd
    obtain ⟨hk, hnd1⟩ := List.nodup_cons.1 hnd
    cases hlk : s.lookup k with
    | none =>
      obtain ⟨s1, hrun, hd⟩ := ih s hwf hnd1
      have hlk1 : s.room.Players.lookup k = none := hlk
      refine ⟨s1, by simp only [rangePlayers, hlk1]; exact hrun, ?_⟩
      have hmem : ∀ k2 p2, k2 ∈ k :: ks → s.lookup k2 = some p2 → k2 ∈ ks := by
        intro k2 p2 h2 hl2
        rcases List.mem_cons.1 h2 with h | h
        · subst h; rw [hlk] at hl2; cases hl2
        · exact h
      refine ⟨?_, ?_, ?_, hd.shrink, ?_, hd.frame, hd.wf⟩
      · intro k2 p2 h2 hl2
        exact hd.kept k2 p2 (hmem k2 p2 h2 hl2) hl2
      · intro k2 p2 h2 hl2
        exact hd.evicted k2 p2 (hmem k2 p2 h2 hl2) hl2
      · intro k2 h2
        exact hd.others k2 (fun h => h2 (List.mem_cons_of_mem _ h))
      · intro c hc
        exact hd.untouched c (fun k2 p2 h2 => hc k2 p2 (List.mem_cons_of_mem _ h2))
    | some p =>
      obtain ⟨s0, hoff, hv⟩ := offer_visited m k p s hwf hlk
      obtain ⟨s1, hrun, hd⟩ := ih s0 hv.wf hnd1
      have hlk1 : s.room.Players.lookup k = some p := hlk
      refine ⟨s1, by simp only [rangePlayers, hlk1, hoff]; exact hrun, ?_⟩
      -- the entry `k` is not visited again, and no later entry shares its queue
      have hfar : ∀ k2 p2, k2 ∈ ks → s0.lookup k2 = some p2 → p2.Send ≠ p.Send := by
        intro k2 p2 h2 hl2 hc
        have hne : k2 ≠ k := fun h => hk (h ▸ h2)
        rw [hv.elsewhere k2 hne] at hl2
        exact hne (hwf.apart k2 k p2 p hl2 hlk hc)
      have hself : s1.lookup k = s0.lookup k ∧ s1.chans p.Send = s0.chans p.Send :=
        ⟨hd.others k hk, hd.untouched p.Send hfar⟩
      have hrest : ∀ k2 p2, k2 ∈ ks → s.lookup k2 = some p2 →
          s0.lookup k2 = some p2 ∧ s0.chans p2.Send = s.chans p2.Send := by
        intro k2 p2 h2 hl2
        have hne : k2 ≠ k := fun h => hk (h ▸ h2)
        refine ⟨by rw [hv.elsewhere k2 hne]; exact hl2, hv.otherChans _ ?_⟩
        exact fun hc => hne (hwf.apart k2 k p2 p hl2 hlk hc)
      have hhere := hv.here
      refine ⟨?_, ?_, ?_, ?_, ?_, hd.frame.trans hv.frame, hd.wf⟩
      · intro k2 p2 h2 hl2 hlen
        rcases List.mem_cons.1 h2 with h | h
        · subst h
          rw [hlk] at hl2; cases hl2
          rw [if_pos hlen] at hhere
          rw [hself.1, hself.2]; exact hhere
        · obtain ⟨ha, hb⟩ := hrest k2 p2 h hl2
          have := hd.kept k2 p2 h ha (by rw [hb]; exact hlen)
          rw [hb] at this; exact this
      · intro k2 p2 h2 hl2 hlen
        rcases List.mem_cons.1 h2 with h | h
        · subst h
          rw [hlk] at hl2; cases hl2
          rw [if_neg hlen] at hhere
          rw [hself.1, hself.2]; exact hhere
        · obtain ⟨ha, hb⟩ := hrest k2 p2 h hl2
          have := hd.evicted k2 p2 h ha (by rw [hb]; exact hlen)
          rw [hb] at this; exact this
      · intro k2 h2
        have hne : k2 ≠ k := fun h => h2 (h ▸ List.mem_cons_self _ _)
        rw [hd.others k2 (fun h => h2 (List.mem_cons_of_mem _ h)), hv.elsewhere k2 hne]
      · intro k2 p2 h2
        have h0 := hd.shrink k2 p2 h2
        by_cases hne : k2 = k
        · subst hne
          by_cases hlen : (s.chans p.Send).buf.length < sendCap
          · rw [if_pos hlen] at hhere
            rw [hhere.1] at h0; rw [hlk]; exact h0
          · rw [if_neg hlen] at hhere
            rw [hhere.1] at h0; cases h0
        · rw [← hv.elsewhere k2 hne]; exact h0
      · intro c hc
        have hcp : c ≠ p.Send := fun h => hc k p (List.mem_cons_self _ _) hlk h.symm
        rw [hd.untouched c ?_, hv.otherChans c hcp]
        intro k2 p2 h2 hl2
        have hne : k2 ≠ k := fun h => hk (h ▸ h2)
        rw [hv.elsewhere k2 hne] at hl2
        exact hc k2 p2 (List.mem_cons_of_mem _ h2) hl2

theorem dispatch_delivered (m : Bytes) (s : Hub) (order : List String)
    (horder : order.Perm s.room.Players.keys) (hwf : WellFormed s) :
    ∃ s1, Dispatch s m order = .ok s1 ∧ Delivered m order s s1 :=
  rangePlayers_delivered m order s hwf (horder.nodup_iff.2 s.room.Players.keys_nodup)

theorem mem_keys_of_lookup {s : Hub} {k : String} {p : Player} (h : s.lookup k = some p) :
    k ∈ s.room.Players.keys := by
  have : (s.room.Players.lookup k).isSome := by
    have h1 : s.room.Players.lookup k = some p := h
    simp [h1]
  exact AList.mem_keys.1 (AList.lookup_isSome.1 this)


/-! ## Register and Unregister -/

theorem lookup_register_same (s : Hub) (p : Player) : (Register s p).lookup p.ID = some p := by
  simp [Register, Hub.lookup]

theorem lookup_register_ne (s : Hub) (p : Player) {k : String} (h : k ≠ p.ID) :
    (Register s p).lookup k = s.lookup k := by
  simp [Register, Hub.lookup, AList.lookup_insert_ne h]

theorem lookup_register_some (s : Hub) (p : Player) {k : String} {q : Player}
    (h : (Register s p).lookup k = some q) : q = p ∧ k = p.ID ∨ k ≠ p.ID ∧ s.lookup k = some q := by
  by_cases hk : k = p.ID
  · subst hk
    rw [lookup_register_same] at h
    exact Or.inl ⟨(Option.some.inj h).symm, rfl⟩
  · exact Or.inr ⟨hk, by rw [← lookup_register_ne s p hk]; exact h⟩

theorem count_register (s : Hub) (p : Player) :
    (Register s p).count = if (s.lookup p.ID).isSome then s.count else s.count + 1 := by
  by_cases h : p.ID ∈ s.room.Players
  · have hs : (s.lookup p.ID).isSome = true := AList.lookup_isSome.2 h
    have hk : p.ID ∈ s.room.Players.entries.keys := AList.mem_keys.1 h
    obtain ⟨b, hb⟩ := List.mem_keys.1 hk
    have hpos : 0 < s.room.Players.entries.length := List.length_pos_of_mem hb
    have hlen : (List.kerase p.ID s.room.Players.entries).length
        = s.room.Players.entries.length - 1 := by
      unfold List.kerase
      exact List.length_eraseP_of_mem hb (by simp)
    simp only [hs, if_true, Hub.count, Register, AList.insert_entries, List.length_cons, hlen]
    omega
  · have hs : (s.lookup p.ID).isSome = false := by
      have := AList.lookup_eq_none.2 h
      simp [Hub.lookup, this]
    simp [hs, Hub.count, Register, List.kerase_of_not_mem_keys (AList.mem_keys.not.1 h)]

theorem unregister_absent (s : Hub) (p : Player) (h : s.lookup p.ID = none) :
    Unregister s p = .ok s := by
  have h1 : s.room.Players.lookup p.ID = none := h
  simp [Unregister, h1]

theorem unregister_present_open (s : Hub) (p q : Player) (h : s.lookup p.ID = some q)
    (ho : (s.chans p.Send).closed = false) :
    Unregister s p = .ok ((s.delete p.ID).setChan p.Send ⟨(s.chans p.Send).buf, true⟩) := by
  have h1 : s.room.Players.lookup p.ID = some q := h
  simp [Unregister, h1, Chan.close, ho]

theorem unregister_present_closed (s : Hub) (p q : Player) (h : s.lookup p.ID = some q)
    (ho : (s.chans p.Send).closed = true) :
    Unregister s p = .error .closeOfClosed := by
  have h1 : s.room.Players.lookup p.ID = some q := h
  simp [Unregister, h1, Chan.close, ho]

/-! ## Claims on Register and Unregister -/

/-- C3: `Register(p)` always completes; afterwards the registry holds `p`, and
nothing else, under `p.ID`, every entry under another identifier is as before,
the size is unchanged when `p.ID` was present and one more otherwise, and no
queue is touched (so the handle that was registered under `p.ID` keeps its
queue as it was, in particular not closed). -/
theorem register_overwrites (s : Hub) (p : Player) :
    ∃ s1, Run s (.Register p) = .ok s1 ∧
      s1.lookup p.ID = some p ∧
      (∀ q, s1.lookup p.ID = some q → q = p) ∧
      (∀ k, k ≠ p.ID → s1.lookup k = s.lookup k) ∧
      s1.count = (if (s.lookup p.ID).isSome then s.count else s.count + 1) ∧
      s1.chans = s.chans ∧
      (∀ q, s.lookup p.ID = some q → (s1.chans q.Send).closed = (s.chans q.Send).closed) := by
  refine ⟨Register s p, rfl, lookup_register_same s p, ?_, ?_, count_register s p, rfl, ?_⟩
  · intro q hq
    rw [lookup_register_same] at hq
    exact (Option.some.inj hq).symm
  · intro k hk
    exact lookup_register_ne s p hk
  · intro q _
    rfl

/-- C5: `Unregister(p)` on a hub whose registry has no entry under `p.ID`
completes without a panic and returns the very same hub state (registry, all
queues with their open/closed status, frame counter). -/
theorem unregister_absent_noop (s : Hub) (p : Player) (h : s.lookup p.ID = none) :
    Run s (.Unregister p) = .ok s :=
  unregister_absent s p h

/-- Witness of `unregister_absent_noop`: the empty hub and a handle `"a"`. -/
theorem unregister_absent_noop_witness :
    Hub.init.lookup (Player.mk "a" 0).ID = none ∧
      Run Hub.init (.Unregister (Player.mk "a" 0)) = .ok Hub.init :=
  ⟨rfl, unregister_absent_noop Hub.init (Player.mk "a" 0) rfl⟩

/-! ## Well-formedness is kept by the hub operations -/

theorem wf_init : WellFormed Hub.init :=
  ⟨fun _ _ h => (by cases h), fun _ _ h => (by cases h), fun _ _ _ _ h => (by cases h)⟩

theorem wf_setChan_open (s : Hub) (c : Nat) (ch : Chan) (hwf : WellFormed s)
    (hc : ch.closed = false) : WellFormed (s.setChan c ch) := by
  refine ⟨hwf.keyed, ?_, hwf.apart⟩
  intro k p hk
  by_cases h : p.Send = c
  · subst h; simpa using hc
  · rw [chans_setChan_ne s ch h]
    exact hwf.isOpen k p hk

theorem wf_register (s : Hub) (p : Player) (hwf : WellFormed s)
    (hfresh : ∀ k q, s.lookup k = some q → q.Send ≠ p.Send)
    (ho : (s.chans p.Send).closed = false) : WellFormed (Register s p) := by
  refine ⟨?_, ?_, ?_⟩
  · intro k q hk
    rcases lookup_register_some s p hk with ⟨hq, hk1⟩ | ⟨_, hk1⟩
    · rw [hq, hk1]
    · exact hwf.keyed k q hk1
  · intro k q hk
    rcases lookup_register_some s p hk with ⟨hq, _⟩ | ⟨_, hk1⟩
    · rw [hq]; exact ho
    · exact hwf.isOpen k q hk1
  · intro k1 k2 p1 p2 h1 h2 hc
    rcases lookup_register_some s p h1 with ⟨hq1, hk1⟩ | ⟨_, hk1⟩
    · rcases lookup_register_some s p h2 with ⟨_, hk2⟩ | ⟨_, hk2⟩
      · rw [hk1, hk2]
      · exact absurd (hq1 ▸ hc).symm (hfresh k2 p2 hk2)
    · rcases lookup_register_some s p h2 with ⟨hq2, _⟩ | ⟨_, hk2⟩
      · exact absurd (hq2 ▸ hc) (hfresh k1 p1 hk1)
      · exact hwf.apart k1 k2 p1 p2 hk1 hk2 hc

theorem wf_tick (s : Hub) (hwf : WellFormed s) : WellFormed (Tick s) :=
  ⟨hwf.keyed, hwf.isOpen, hwf.apart⟩

/-! ## Dispatch leaves unregistered queues alone -/

theorem offer_frame (m : Bytes) (p : Player) (s s1 : Hub) (h : offer m p s = .ok s1) :
    (∀ k q, s1.lookup k = some q → s.lookup k = some q) ∧
      (∀ c, c ≠ p.Send → s1.chans c = s.chans c) := by
  unfold offer at h
  split at h
  · cases h
  · cases h
    exact ⟨fun _ _ hq => hq, fun c hc => chans_setChan_ne s _ hc⟩
  · split at h
    · cases h
    · cases h
      refine ⟨fun k q hq => (lookup_delete_some _ hq).2, fun c hc => ?_⟩
      simp [chans_setChan_ne s _ hc]

theorem rangePlayers_frame (m : Bytes) (ks : List String) :
    ∀ s s1 : Hub, rangePlayers m ks s = .ok s1 →
      (∀ k q, s1.lookup k = some q → s.lookup k = some q) ∧
      (∀ c, (∀ k q, s.lookup k = some q → q.Send ≠ c) → s1.chans c = s.chans c) := by
  induction ks with
  | nil =>
    intro s s1 h
    cases h
    exact ⟨fun _ _ hq => hq, fun _ _ => rfl⟩
  | cons k ks ih =>
    intro s s1 h
    simp only [rangePlayers] at h
    split at h
    · exact ih s s1 h
    · rename_i p hp
      split at h
      · cases h
      · rename_i s0 hoff
        obtain ⟨ha, hb⟩ := offer_frame m p s s0 hoff
        obtain ⟨hc, hd⟩ := ih s0 s1 h
        refine ⟨fun k2 q hq => ha k2 q (hc k2 q hq), fun c hfree => ?_⟩
        rw [hd c (fun k2 q hq => hfree k2 q (ha k2 q hq)), hb c]
        exact fun hcp => hfree k p hp hcp.symm

theorem unregister_ok (s s1 : Hub) (p : Player) (h : Unregister s p = .ok s1) :
    s1 = s ∨ ((s.chans p.Send).closed = false ∧
      s1 = (s.delete p.ID).setChan p.Send ⟨(s.chans p.Send).buf, true⟩) := by
  unfold Unregister at h
  split at h
  · cases hc : (s.chans p.Send).closed
    · simp [Chan.close, hc] at h
      exact Or.inr ⟨rfl, h.symm⟩
    · simp [Chan.close, hc] at h
  · cases h
    exact Or.inl rfl

/-- A closed queue that no registry entry refers to is left as it is by every
run of the hub that registers no handle on it. -/
theorem runAll_frozen (c : Nat) (es : List Event) :
    ∀ s t : Hub, (∀ q, Event.Register q ∈ es → q.Send ≠ c) →
      (∀ k q, s.lookup k = some q → q.Send ≠ c) → (s.chans c).closed = true →
      RunAll s es = .ok t →
      t.chans c = s.chans c ∧ (∀ k q, t.lookup k = some q → q.Send ≠ c) := by
  induction es with
  | nil =>
    intro s t _ hfree _ h
    cases h
    exact ⟨rfl, hfree⟩
  | cons e es ih =>
    intro s t hreg hfree hcl h
    simp only [RunAll] at h
    split at h
    · cases h
    · rename_i s0 hstep
      have hreg1 : ∀ q, Event.Register q ∈ es → q.Send ≠ c :=
        fun q hq => hreg q (List.mem_cons_of_mem _ hq)
      have key : s0.chans c = s.chans c ∧ (∀ k q, s0.lookup k = some q → q.Send ≠ c) := by
        cases e with
        | Register p =>
          cases hstep
          refine ⟨rfl, fun k q hq => ?_⟩
          rcases lookup_register_some s p hq with ⟨hqp, _⟩ | ⟨_, hk1⟩
          · rw [hqp]; exact hreg p (List.mem_cons_self _ _)
          · exact hfree k q hk1
        | Unregister p =>
          rcases unregister_ok s s0 p hstep with h0 | ⟨hopen, h0⟩
          · rw [h0]; exact ⟨rfl, hfree⟩
          · have hne : c ≠ p.Send := by
              intro hcp
              rw [hcp, hopen] at hcl
              cases hcl
            rw [h0]
            refine ⟨by rw [chans_setChan_ne _ _ hne]; rfl, fun k q hq => ?_⟩
            exact hfree k q (lookup_delete_some _ hq).2
        | Broadcast m order =>
          obtain ⟨ha, hb⟩ := rangePlayers_frame m order s s0 hstep
          exact ⟨hb c hfree, fun k q hq => hfree k q (ha k q hq)⟩
        | Tick =>
          cases hstep
          exact ⟨rfl, hfree⟩
      obtain ⟨h1, h2⟩ := ih s0 t hreg1 key.2 (by rw [key.1]; exact hcl) h
      exact ⟨h1.trans key.1, h2⟩

/-! ## Claims on Dispatch -/

/-- C1: in a well-formed hub state (every state of the server is one) and for
every order in which `range` may yield the registry keys, `Dispatch(m)`
completes, and every client registered with fewer than 256 queued messages is
still registered afterwards, its queue open and holding its old contents
followed by `m`.  The client named by the `player_id` of `m`, whatever the
decoder, is one of them (self-echo). -/
theorem dispatch_appends (s : Hub) (m : Bytes) (order : List String)
    (horder : order.Perm s.room.Players.keys) (hwf : WellFormed s) :
    ∃ s1, Dispatch s m order = .ok s1 ∧
      (∀ k p, s.lookup k = some p → (s.chans p.Send).buf.length < sendCap →
        s1.lookup k = some p ∧ s1.chans p.Send = ⟨(s.chans p.Send).buf ++ [m], false⟩) ∧
      (∀ (α : Type) (unmarshal : Bytes → Option (FrameData α)) (f : FrameData α) (p : Player),
        unmarshal m = some f → s.lookup f.PlayerID = some p →
        (s.chans p.Send).buf.length < sendCap →
        s1.lookup f.PlayerID = some p ∧
          s1.chans p.Send = ⟨(s.chans p.Send).buf ++ [m], false⟩) := by
  obtain ⟨s1, hrun, hd⟩ := dispatch_delivered m s order horder hwf
  refine ⟨s1, hrun,
    fun k p hk hl => hd.kept k p (horder.mem_iff.2 (mem_keys_of_lookup hk)) hk hl, ?_⟩
  intro α unmarshal f p _ hk hl
  exact hd.kept f.PlayerID p (horder.mem_iff.2 (mem_keys_of_lookup hk)) hk hl

/-- C2: in a well-formed hub state and for every iteration order, a registered
client whose queue holds 256 messages is evicted by `Dispatch(m)`: the step
completes, the client is no longer in the registry, its queue is closed with
the contents it had (`m` is not appended), and after any further run of the
hub that registers no handle on that queue, the queue is still exactly that,
so no later Dispatch step, in whatever order it visits the registry, changes
it. -/
theorem dispatch_evicts (s : Hub) (m : Bytes) (order : List String) (k : String) (p : Player)
    (horder : order.Perm s.room.Players.keys) (hwf : WellFormed s)
    (hk : s.lookup k = some p) (hfull : (s.chans p.Send).buf.length = sendCap) :
    ∃ s1, Dispatch s m order = .ok s1 ∧
      s1.lookup k = none ∧ (∀ k2 q, s1.lookup k2 = some q → q.Send ≠ p.Send) ∧
      s1.chans p.Send = ⟨(s.chans p.Send).buf, true⟩ ∧
      (∀ (es : List Event) (t : Hub), (∀ q, Event.Register q ∈ es → q.Send ≠ p.Send) →
        RunAll s1 es = .ok t →
        t.chans p.Send = s1.chans p.Send ∧
          ∀ m2 order2 t1, Dispatch t m2 order2 = .ok t1 →
            t1.chans p.Send = s1.chans p.Send) := by
  obtain ⟨s1, hrun, hd⟩ := dispatch_delivered m s order horder hwf
  have hnot : ¬ (s.chans p.Send).buf.length < sendCap := by omega
  obtain ⟨hgone, hch⟩ := hd.evicted k p (horder.mem_iff.2 (mem_keys_of_lookup hk)) hk hnot
  have hfree : ∀ k2 q, s1.lookup k2 = some q → q.Send ≠ p.Send := by
    intro k2 q hq hc
    have hq0 := hd.shrink k2 q hq
    have hkk : k2 = k := hwf.apart k2 k q p hq0 hk hc
    rw [hkk, hgone] at hq
    cases hq
  have hcl : (s1.chans p.Send).closed = true := by rw [hch]
  refine ⟨s1, hrun, hgone, hfree, hch, ?_⟩
  intro es t hreg ht
  obtain ⟨h1, h2⟩ := runAll_frozen p.Send es s1 t hreg hfree hcl ht
  refine ⟨h1, fun m2 order2 t1 hm2 => ?_⟩
  rw [(rangePlayers_frame m2 order2 t t1 hm2).2 p.Send h2, h1]

/-- Witness of `dispatch_appends`: one client `"a"` with an empty queue. -/
theorem dispatch_appends_witness :
    WellFormed (Register Hub.init (Player.mk "a" 0)) ∧
      ∃ s1, Dispatch (Register Hub.init (Player.mk "a" 0)) [1] ["a"] = .ok s1 ∧
        s1.lookup "a" = some (Player.mk "a" 0) ∧ s1.chans 0 = ⟨[[1]], false⟩ := by
  have hwf : WellFormed (Register Hub.init (Player.mk "a" 0)) :=
    wf_register Hub.init (Player.mk "a" 0) wf_init (fun _ _ h => by cases h) rfl
  obtain ⟨s1, h1, h2, _⟩ := dispatch_appends (Register Hub.init (Player.mk "a" 0)) [1] ["a"]
    (List.Perm.refl _) hwf
  exact ⟨hwf, s1, h1,
    h2 "a" (Player.mk "a" 0) (lookup_register_same Hub.init (Player.mk "a" 0)) (by decide)⟩

/-- Witness of `dispatch_evicts`: one client `"a"` whose queue holds 256
empty messages. -/
theorem dispatch_evicts_witness :
    WellFormed ((Register Hub.init (Player.mk "a" 0)).setChan 0 ⟨List.replicate 256 [], false⟩) ∧
      ∃ s1, Dispatch ((Register Hub.init (Player.mk "a" 0)).setChan 0
          ⟨List.replicate 256 [], false⟩) [1] ["a"] = .ok s1 ∧
        s1.lookup "a" = none ∧ s1.chans 0 = ⟨List.replicate 256 [], true⟩ := by
  have hwf : WellFormed ((Register Hub.init (Player.mk "a" 0)).setChan 0
      ⟨List.replicate 256 [], false⟩) :=
    wf_setChan_open _ 0 _
      (wf_register Hub.init (Player.mk "a" 0) wf_init (fun _ _ h => by cases h) rfl) rfl
  obtain ⟨s1, h1, h2, _, h3, _⟩ := dispatch_evicts
    ((Register Hub.init (Player.mk "a" 0)).setChan 0 ⟨List.replicate 256 [], false⟩)
    [1] ["a"] "a" (Player.mk "a" 0) (List.Perm.refl _) hwf
    (lookup_register_same Hub.init (Player.mk "a" 0)) (List.length_replicate 256 [])
  exact ⟨hwf, s1, h1, h2, h3⟩

/-! ## Claims on the Reader pump -/

/-- C7: when the inbound `message` decodes to the frame `f` and the relay clock
reads `t`, what the Reader pump hands to the broadcast path is the encoding of
a frame with timestamp `t` and the `player_id`, `frame_num` and `actions` of
`f`; and an inbound message whose frame differs from `f` at most in its
timestamp is relayed as the very same bytes. -/
theorem relay_restamps {α : Type} (unmarshal : Bytes → Option (FrameData α))
    (marshal : FrameData α → Option Bytes) (t : Int) (message : Bytes) (f : FrameData α)
    (hf : unmarshal message = some f) :
    ∃ g : FrameData α, relayFrame unmarshal marshal t message = marshal g ∧
      g.Timestamp = t ∧ g.PlayerID = f.PlayerID ∧ g.FrameNum = f.FrameNum ∧
      g.Actions = f.Actions ∧
      (∀ rest, ReadPump unmarshal marshal ((some message, t) :: rest) =
        (match marshal g with
          | some data => [ReadEffect.Broadcast data]
          | none => []) ++ ReadPump unmarshal marshal rest) ∧
      (∀ (message2 : Bytes) (f2 : FrameData α), unmarshal message2 = some f2 →
        f2.PlayerID = f.PlayerID → f2.FrameNum = f.FrameNum → f2.Actions = f.Actions →
        relayFrame unmarshal marshal t message2 = relayFrame unmarshal marshal t message) := by
  refine ⟨stamp f t, by simp [relayFrame, hf], rfl, rfl, rfl, rfl, ?_, ?_⟩
  · intro rest
    have h : relayFrame unmarshal marshal t message = marshal (stamp f t) := by
      simp [relayFrame, hf]
    simp only [ReadPump, h]
    cases marshal (stamp f t) <;> rfl
  · intro message2 f2 hf2 h1 h2 h3
    have : stamp f2 t = stamp f t := by
      cases f; cases f2
      simp only [stamp] at *
      simp_all
    simp [relayFrame, hf, hf2, this]

/-- Witness of `relay_restamps`: a decoder that reads the first byte as the
frame number, an encoder that writes frame number and timestamp. -/
theorem relay_restamps_witness :
    relayFrame (fun b : Bytes => some (FrameData.mk "a" b.length 5 ()))
      (fun f : FrameData Unit => some [UInt8.ofNat f.FrameNum.toNat, UInt8.ofNat f.Timestamp.toNat])
      7 [9, 9] = some [2, 7] := by
  obtain ⟨g, h, ht, _, hn, _, _, _⟩ := relay_restamps
    (fun b : Bytes => some (FrameData.mk "a" b.length 5 ()))
    (fun f : FrameData Unit => some [UInt8.ofNat f.FrameNum.toNat, UInt8.ofNat f.Timestamp.toNat])
    7 [9, 9] (FrameData.mk "a" 2 5 ()) rfl
  rw [h]
  simp only [hn, ht]
  rfl

/-- C8: an inbound payload whose decode fails adds nothing to what the Reader
pump does: nothing is sent on the broadcast path, the deferred Unregister and
connection close do not run, and the loop goes on with the next receive. -/
theorem malformed_skipped {α : Type} (unmarshal : Bytes → Option (FrameData α))
    (marshal : FrameData α → Option Bytes) (t : Int) (message : Bytes)
    (rest : List (Option Bytes × Int)) (hf : unmarshal message = none) :
    relayFrame unmarshal marshal t message = none ∧
      ReadPump unmarshal marshal ((some message, t) :: rest) =
        ReadPump unmarshal marshal rest := by
  have h : relayFrame unmarshal marshal t message = none := by
    simp [relayFrame, hf]
  exact ⟨h, by simp only [ReadPump, h]⟩

/-- Witness of `malformed_skipped`: a decoder that rejects the empty payload;
the frame that follows the malformed one is still relayed. -/
theorem malformed_skipped_witness :
    ReadPump (fun b : Bytes => if b = [] then none else some (FrameData.mk "a" 1 0 ()))
      (fun _ : FrameData Unit => some [1]) [(some [], 3), (some [5], 4), (none, 5)] =
      [.Broadcast [1], .Unregister, .ConnClose] := by
  rw [(malformed_skipped (fun b : Bytes => if b = [] then none else some (FrameData.mk "a" 1 0 ()))
    (fun _ : FrameData Unit => some [1]) 3 [] [(some [5], 4), (none, 5)] rfl).2]
  rfl

/-! ## Claims on the Writer pump -/

theorem drainQueued_all (ms : List Bytes) :
    ∀ (w : Bytes) (closed : Bool),
      drainQueued ms.length w ⟨ms, closed⟩ =
        some (w ++ (ms.map (fun x => newline :: x)).flatten, ⟨[], closed⟩) := by
  induction ms with
  | nil =>
    intro w closed
    simp [drainQueued]
  | cons x ms ih =>
    intro w closed
    simp [drainQueued, ih]

theorem intercalate_newline (m : Bytes) (ms : List Bytes) :
    [newline].intercalate (m :: ms) = m ++ (ms.map (fun x => newline :: x)).flatten := by
  induction ms generalizing m with
  | nil => simp [List.intercalate]
  | cons x ms ih =>
    have := ih x
    simp only [List.intercalate, List.intersperse_cons_cons, List.flatten, List.map_cons,
      List.singleton_append, List.cons_append, List.nil_append] at this ⊢
    rw [this]

/-- C9: when the Writer pump takes `m` from a queue that holds `m1..mk` behind
it (and the connection yields a writer), it emits one write whose bytes are
`m` followed, for each `mi` in queue order, by a newline and `mi`, and the
queue is left without these `k` messages; when no message contains a newline,
splitting the written bytes at the newlines gives back `m, m1, .., mk`. -/
theorem writePump_coalesces (m : Bytes) (ms : List Bytes) (closed : Bool) :
    WritePumpRecv true ⟨m :: ms, closed⟩ =
        .wrote (m ++ (ms.map (fun x => newline :: x)).flatten) ⟨[], closed⟩ ∧
      ((∀ x ∈ m :: ms, newline ∉ x) →
        (m ++ (ms.map (fun x => newline :: x)).flatten).splitOn newline = m :: ms) := by
  constructor
  · simp [WritePumpRecv, drainQueued_all]
  · intro h
    rw [← intercalate_newline]
    exact List.splitOn_intercalate _ newline h (List.cons_ne_nil _ _)

/-- Witness of `writePump_coalesces`: three queued messages. -/
theorem writePump_coalesces_witness :
    WritePumpRecv true ⟨[[1, 2], [3], []], false⟩ = .wrote [1, 2, 10, 3, 10] ⟨[], false⟩ ∧
      List.splitOn newline ([1, 2, 10, 3, 10] : Bytes) = [[1, 2], [3], []] := by
  have h := writePump_coalesces [1, 2] [[3], []] false
  exact ⟨h.1, h.2 (by decide)⟩

/-! ## Every state of the server is well formed -/

theorem wf_setChan_flag (s : Hub) (c : Nat) (ch : Chan) (hwf : WellFormed s)
    (hc : ch.closed = (s.chans c).closed) : WellFormed (s.setChan c ch) := by
  refine ⟨hwf.keyed, ?_, hwf.apart⟩
  intro k p hk
  by_cases h : p.Send = c
  · subst h
    rw [chans_setChan_same, hc]
    exact hwf.isOpen k p hk
  · rw [chans_setChan_ne s ch h]
    exact hwf.isOpen k p hk

theorem drainQueued_closed (n : Nat) :
    ∀ (w : Bytes) (ch : Chan) (r : Bytes × Chan),
      drainQueued n w ch = some r → r.2.closed = ch.closed := by
  induction n with
  | zero =>
    intro w ch r h
    simp only [drainQueued, Option.some.injEq] at h
    rw [← h]
  | succ n ih =>
    intro w ch r h
    simp only [drainQueued] at h
    split at h
    · have := ih _ _ r h
      exact this
    · split at h
      · exact ih _ ch r h
      · cases h

theorem writePumpRecv_closed ( nextWriter : Bool) (ch : Chan) :
    ((WritePumpRecv nextWriter ch).queue ch).closed = ch.closed := by
  unfold WritePumpRecv
  split
  · split <;> rfl
  · split
    · split
      · rename_i h
        exact drainQueued_closed _ _ _ _ h
      · rfl
    · rfl

theorem inv_init : Server.init.Inv :=
  ⟨wf_init, fun _ _ h => (by cases h), fun _ h => (by cases h), fun _ h => (by cases h)⟩

theorem inv_serveWs (w : Server) (query st : String) (hw : w.Inv) :
    (serveWs w query st).Inv := by
  have hfresh : ∀ k q, (w.hub.setChan w.next Chan.make).lookup k = some q →
      q.Send ≠ (newPlayer w.next query st).Send := by
    intro k q hq
    exact Nat.ne_of_lt (hw.regBelow k q hq)
  refine ⟨?_, ?_, ?_, ?_⟩
  · exact wf_register _ _ (wf_setChan_open _ _ _ hw.wf rfl) hfresh (by simp [newPlayer, Chan.make])
  · intro k p hk
    rcases lookup_register_some _ _ hk with ⟨hp, _⟩ | ⟨_, hk1⟩
    · rw [hp]; exact Nat.lt_succ_self _
    · exact Nat.lt_succ_of_lt (hw.regBelow k p hk1)
  · intro p hp
    rcases List.mem_cons.1 hp with h | h
    · rw [h]; exact Nat.lt_succ_self _
    · exact Nat.lt_succ_of_lt (hw.readBelow p h)
  · intro p hp k p2 hk hc
    rcases lookup_register_some _ _ hk with ⟨hp2, _⟩ | ⟨_, hk1⟩
    · rcases List.mem_cons.1 hp with h | h
      · rw [h, hp2]
      · have := hw.readBelow p h
        rw [hc, hp2] at this
        exact absurd this (Nat.lt_irrefl _)
    · rcases List.mem_cons.1 hp with h | h
      · have := hw.regBelow k p2 hk1
        rw [← hc, h] at this
        exact absurd this (Nat.lt_irrefl _)
      · exact hw.own p h k p2 hk1 hc

theorem inv_step (w w1 : Server) (a : Action) (hw : w.Inv) (h : w.step a = .ok w1) :
    w1.Inv := by
  cases a with
  | connect query st =>
    simp only [Server.step, Outcome.ok.injEq] at h
    rw [← h]
    exact inv_serveWs w query st hw
  | readerExit player =>
    simp only [Server.step] at h
    split at h
    · rename_i hmem
      split at h
      · cases h
      · rename_i s1 hun
        simp only [Outcome.ok.injEq] at h
        rw [← h]
        rcases unregister_ok _ _ _ hun with h0 | ⟨_, h0⟩
        · rw [h0]
          exact ⟨hw.wf, hw.regBelow, fun p hp => hw.readBelow p (List.mem_of_mem_erase hp),
            fun p hp => hw.own p (List.mem_of_mem_erase hp)⟩
        · rw [h0]
          have hsub : ∀ k q, ((w.hub.delete player.ID).setChan player.Send
              ⟨(w.hub.chans player.Send).buf, true⟩).lookup k = some q →
              k ≠ player.ID ∧ w.hub.lookup k = some q := fun k q hq => lookup_delete_some _ hq
          refine ⟨⟨?_, ?_, ?_⟩, ?_, ?_, ?_⟩
          · exact fun k q hq => hw.wf.keyed k q (hsub k q hq).2
          · intro k q hq
            obtain ⟨hne, hq0⟩ := hsub k q hq
            have hc : q.Send ≠ player.Send := by
              intro hc
              have := hw.own player hmem k q hq0 hc.symm
              exact hne (by rw [this]; exact (hw.wf.keyed k q hq0).symm)
            rw [chans_setChan_ne _ _ hc]
            exact hw.wf.isOpen k q hq0
          · exact fun k1 k2 p1 p2 h1 h2 =>
              hw.wf.apart k1 k2 p1 p2 (hsub k1 p1 h1).2 (hsub k2 p2 h2).2
          · exact fun k q hq => hw.regBelow k q (hsub k q hq).2
          · exact fun p hp => hw.readBelow p (List.mem_of_mem_erase hp)
          · exact fun p hp k q hq => hw.own p (List.mem_of_mem_erase hp) k q (hsub k q hq).2
    · cases h
  | broadcast m order =>
    simp only [Server.step] at h
    split at h
    · rename_i horder
      split at h
      · cases h
      · rename_i s1 hd
        simp only [Outcome.ok.injEq] at h
        rw [← h]
        obtain ⟨s2, hrun, hdel⟩ := dispatch_delivered m w.hub order horder hw.wf
        rw [hrun] at hd
        cases hd
        exact ⟨hdel.wf, fun k q hq => hw.regBelow k q (hdel.shrink k q hq), hw.readBelow,
          fun p hp k q hq => hw.own p hp k q (hdel.shrink k q hq)⟩
    · cases h
  | tick =>
    simp only [Server.step, Outcome.ok.injEq] at h
    rw [← h]
    exact ⟨wf_tick _ hw.wf, hw.regBelow, hw.readBelow, hw.own⟩
  | writerRecv player nextWriter =>
    simp only [Server.step] at h
    split at h
    · simp only [Outcome.ok.injEq] at h
      rw [← h]
      exact ⟨wf_setChan_flag _ _ _ hw.wf (writePumpRecv_closed _ _), hw.regBelow, hw.readBelow,
        hw.own⟩
    · cases h

theorem inv_run (as : List Action) :
    ∀ w w1 : Server, w.Inv → w.run as = .ok w1 → w1.Inv := by
  induction as with
  | nil =>
    intro w w1 hw h
    simp only [Server.run, Outcome.ok.injEq] at h
    rw [← h]; exact hw
  | cons a as ih =>
    intro w w1 hw h
    simp only [Server.run] at h
    split at h
    · rename_i w0 hstep
      exact ih w0 w1 (inv_step w w0 a hw hstep) h
    · cases h
    · cases h

/-- Every hub state the server reaches from start-up is well formed. -/
theorem Server.run_wellFormed (as : List Action) (w : Server)
    (h : Server.init.run as = .ok w) : WellFormed w.hub :=
  (inv_run as Server.init w inv_init h).wf

/-- In every state the server reaches, a Dispatch completes, whatever the
iteration order: the hub never sends on a closed queue. -/
theorem Server.dispatch_completes (as : List Action) (w : Server) (m : Bytes)
    (order : List String) (horder : order.Perm w.hub.room.Players.keys)
    (h : Server.init.run as = .ok w) : ∃ s1, Dispatch w.hub m order = .ok s1 := by
  obtain ⟨s1, hrun, _⟩ := dispatch_delivered m w.hub order horder (Server.run_wellFormed as w h)
  exact ⟨s1, hrun⟩

/-! ## Unregister of a handle that is no longer the registered one -/

/-- What `Unregister(p)` does when `p.ID` is a key and the queue of `p` is
open: the key is deleted, the queue of `p` is closed with its contents kept,
the frame counter is as before. -/
theorem unregister_closes (s : Hub) (p q : Player) (h : s.lookup p.ID = some q)
    (ho : (s.chans p.Send).closed = false) :
    ∃ s1, Run s (.Unregister p) = .ok s1 ∧ s1.lookup p.ID = none ∧
      s1.chans p.Send = ⟨(s.chans p.Send).buf, true⟩ ∧
      s1.room.FrameNum = s.room.FrameNum :=
  ⟨_, unregister_present_open s p q h ho, by simp, by simp, by simp⟩

/-- Entries under another identifier than `p.ID` survive `Unregister(p)`, and
so does every queue other than that of `p`. -/
theorem unregister_others (s s1 : Hub) (p : Player) (h : Unregister s p = .ok s1) :
    (∀ k, k ≠ p.ID → s1.lookup k = s.lookup k) ∧
      (∀ c, c ≠ p.Send → s1.chans c = s.chans c) := by
  rcases unregister_ok s s1 p h with h0 | ⟨_, h0⟩
  · rw [h0]; exact ⟨fun _ _ => rfl, fun _ _ => rfl⟩
  · rw [h0]
    exact ⟨fun k hk => by rw [lookup_setChan, lookup_delete_ne _ hk],
      fun c hc => by rw [chans_setChan_ne _ _ hc, chans_delete]⟩

set_option maxRecDepth 100000 in
/-- C4, the code at the failing input: after the handle `("a", queue 0)` was
registered and evicted by the 257th Dispatch, and a second handle
`("a", queue 1)` registered, the identifier `"a"` is present in the registry,
and `Unregister` of the first handle panics with a close of a closed channel
instead of completing. -/
theorem unregister_evicted_panics :
    ∃ s, RunAll Hub.init (Event.Register (Player.mk "a" 0) ::
        (List.replicate 257 (Event.Broadcast [] ["a"]) ++ [Event.Register (Player.mk "a" 1)])) = .ok s ∧
      s.lookup (Player.mk "a" 0).ID = some (Player.mk "a" 1) ∧
      Run s (.Unregister (Player.mk "a" 0)) = .error .closeOfClosed :=
  ⟨_, rfl, rfl, rfl⟩

/-- C6, the code at the failing input: two connections register as `"a"`, the
second handle `("a", queue 1)` is the registered one; when the reader of the
first handle exits, `Unregister` removes the entry `"a"`, so the second handle,
whose reader still runs and whose queue is still open, is no longer
registered. -/
theorem disconnect_unregisters_newer :
    ∃ w0 w1, Server.init.run [.connect "a" "", .connect "a" ""] = .ok w0 ∧
      w0.hub.lookup "a" = some (Player.mk "a" 1) ∧
      w0.step (.readerExit (Player.mk "a" 0)) = .ok w1 ∧
      w1.hub.lookup "a" = none ∧
      (w1.hub.chans 1).closed = false ∧
      Player.mk "a" 1 ∈ w1.readers :=
  ⟨_, _, rfl, rfl, rfl, rfl, rfl, by decide⟩

set_option maxRecDepth 100000 in
/-- C10, the code at the failing input: a connection `"a"` is made, 257
messages are dispatched while its writer takes none (the last one evicts it and
closes its queue), a second connection `"a"` is made, then the reader of the
first connection exits: its one `Unregister` finds `"a"` in the registry and
closes the already closed queue, and the hub panics. -/
theorem reconnect_then_exit_panics :
    Server.init.run (Action.connect "a" "" ::
      (List.replicate 257 (Action.broadcast [] ["a"]) ++
        [Action.connect "a" "", Action.readerExit (Player.mk "a" 0)])) =
      Outcome.panic Panic.closeOfClosed :=
  rfl
end Temporex
